import Mathlib

/-
Verification of the bytecode ingestion core of sbpf-linker
(src/byteparser.rs, function parse_bytecode) against its
natural-language specification.

The object-file reader (crate object), the lexer/AST types of
sbpf_assembler and the opcode table of sbpf_common are external
collaborators; they are embedded at their interface boundary exactly as
parse_bytecode consumes them.  The instruction byte decoder
(Instruction.from_bytes) is kept as an explicit function parameter so
that every theorem holds for an arbitrary decoder behaviour.
-/

set_option autoImplicit false

deriving instance DecidableEq for Except

namespace SbpfLinker

/-- Modelled from the spec: the fixed standard instruction width of the
encoding (the constants module of the crate is outside src). -/
def STANDARD_INSTRUCTION_SIZE : Nat := 8

/-- Modelled from the spec: the fixed double-length width consumed by the
wide immediate-load (lddw) encoding. -/
def LDDW_INSTRUCTION_SIZE : Nat := 16

/-- Modelled from the spec: the single opcode byte that the opcode table
classifies as the wide immediate-load form (Opcode.Lddw, byte 0x18). -/
def lddw_opcode : Nat := 24

/-- Interface of the sbpf_assembler lexer: immediate values. -/
inductive ImmediateValue where
  | Int (v : Int)
  deriving DecidableEq

/-- Interface of the sbpf_assembler lexer: the token variants
parse_bytecode produces or inspects.  Spans are byte ranges. -/
inductive Token where
  | Directive (s : String) (span : Nat × Nat)
  | VectorLiteral (vs : List ImmediateValue) (span : Nat × Nat)
  | ImmediateValue (v : SbpfLinker.ImmediateValue) (span : Nat × Nat)
  | Identifier (s : String) (span : Nat × Nat)
  | Register (r : Nat) (span : Nat × Nat)
  deriving DecidableEq

/-- Interface of sbpf_assembler: a decoded instruction, of which
parse_bytecode only touches the operand list. -/
structure Instruction where
  operands : List Token
  deriving DecidableEq

/-- Interface of sbpf_assembler: a read-only data record. -/
structure ROData where
  name : String
  args : List Token
  span : Nat × Nat
  deriving DecidableEq

/-- Interface of sbpf_assembler: AST nodes built by parse_bytecode. -/
inductive ASTNode where
  | ROData (rodata : SbpfLinker.ROData) (offset : Nat)
  | Instruction (instruction : SbpfLinker.Instruction) (offset : Nat)
  deriving DecidableEq

/-- Interface of the object crate: a symbol as parse_bytecode reads it
(name lookup is fallible, address and size are u64, owning section). -/
structure ObjSymbol where
  name : Except String String
  address : Nat
  size : Nat
  section_index : Option Nat
  deriving DecidableEq

/-- Interface of the object crate: a relocation target. -/
inductive RelocationTarget where
  | Symbol (idx : Nat)
  | Other
  deriving DecidableEq

/-- Interface of the object crate: one relocation entry of a section,
a byte offset paired with a target. -/
structure Relocation where
  offset : Nat
  target : RelocationTarget
  deriving DecidableEq

/-- Interface of the object crate: a section as parse_bytecode reads it. -/
structure ObjSection where
  name : Except String String
  data : Except String (List Nat)
  size : Nat
  index : Nat
  relocations : List Relocation
  deriving DecidableEq

/-- Interface of the object crate: a parsed object file. -/
structure ObjFile where
  sections : List ObjSection
  symbols : List ObjSymbol
  deriving DecidableEq

/-- Interface of the object crate: symbol_by_index, fallible lookup of a
symbol by its symbol-table index. -/
def ObjFile.symbol_by_index (o : ObjFile) (i : Nat) : Except String ObjSymbol :=
  match o.symbols[i]? with
  | some s => .ok s
  | none => .error "invalid symbol table index"

/-- Modelled from the spec: the linker error enum lives in the crate root
(lib.rs), which is outside src; its variants follow the error kinds of
spec section 7 as parse_bytecode constructs them. -/
inductive SbpfLinkerError where
  | FileParseError (msg : String)
  | InstructionParseError (msg : String)
  | BuildProgramError (errors : List String)
  deriving DecidableEq

/-- Outcome of running the Rust code: an ordinary recoverable error
(returned Err) is distinguished from a process abort (panic), so that
panicking control flow such as out-of-bounds slice indexing stays
observable in the embedding. -/
inductive Failure where
  | err (e : SbpfLinkerError)
  | panicked (msg : String)
  deriving DecidableEq

abbrev Res (α : Type) := Except Failure α

/-- The rodata_table HashMap, address to label; embedded as an
association list with HashMap insert/get semantics. -/
def table_insert (t : List (Nat × String)) (k : Nat) (v : String) : List (Nat × String) :=
  if t.any (fun p => p.1 = k) then t.map (fun p => if p.1 = k then (k, v) else p)
  else t ++ [(k, v)]

def table_get (t : List (Nat × String)) (k : Nat) : Option String :=
  (t.find? (fun p => p.1 = k)).map (fun p => p.2)

def table_keys (t : List (Nat × String)) : List Nat := t.map (fun p => p.1)

/-- The str starts_with test, as a character-list prefix test (for
valid UTF-8 the byte-prefix and character-prefix readings agree). -/
def str_starts_with (s p : String) : Bool := p.data.isPrefixOf s.data

/-- Name matching of byteparser.rs line 22: name().map(starts_with
".rodata").unwrap_or(false). -/
def rodata_named (s : ObjSection) : Bool :=
  match s.name with
  | .ok n => str_starts_with n ".rodata"
  | .error _ => false

/-- Name matching of byteparser.rs line 92: section.name() == Ok(".text"). -/
def is_text_section (s : ObjSection) : Bool :=
  match s.name with
  | .ok n => n == ".text"
  | .error _ => false

/-- Eligibility test of byteparser.rs line 53: the symbol belongs to the
rodata section and has nonzero size. -/
def eligible (roIdx : Nat) (s : ObjSymbol) : Bool :=
  decide (s.section_index = some roIdx ∧ 0 < s.size)

/-- The byte gathering loop of byteparser.rs lines 66-71; the getD
default is irrelevant because build_rodata guards the bound first. -/
def rodata_bytes (d : List Nat) (addr sz : Nat) : List ImmediateValue :=
  (List.range sz).map fun i => ImmediateValue.Int (d.getD (addr + i) 0)

/-- The ROData node pushed at byteparser.rs lines 73-83. -/
def mk_rodata_node (d : List Nat) (s : ObjSymbol) (nm : String) (off : Nat) : ASTNode :=
  .ROData
    { name := nm,
      args := [Token.Directive "byte" (0, 1),
               Token.VectorLiteral (rodata_bytes d s.address s.size) (0, 1)],
      span := (0, 1) }
    off

/-- The rodata symbol loop of byteparser.rs lines 51-87.  Indexing
ro_data out of bounds in Rust panics, which the embedding records as a
panicked outcome. -/
def build_rodata (d : List Nat) (roIdx : Nat) :
    List ObjSymbol → Nat → List ASTNode → List (Nat × String) →
    Res (List ASTNode × List (Nat × String) × Nat)
  | [], off, acc, tbl => .ok (acc, tbl, off)
  | s :: rest, off, acc, tbl =>
    if eligible roIdx s then
      match s.name with
      | .error e => .error (.err (.InstructionParseError ("Failed to read symbol name: " ++ e)))
      | .ok nm =>
        if s.address + s.size ≤ d.length then
          build_rodata d roIdx rest (off + s.size)
            (acc ++ [mk_rodata_node d s nm off]) (table_insert tbl s.address nm)
        else .error (.panicked "index out of bounds")
    else build_rodata d roIdx rest off acc tbl

/-- The width classification of byteparser.rs lines 105-108: the wide
opcode takes the double length, everything else the standard length. -/
def node_len_at (d : List Nat) (offset : Nat) : Nat :=
  if d.getD offset 0 = lddw_opcode then LDDW_INSTRUCTION_SIZE else STANDARD_INSTRUCTION_SIZE

/-- The instruction decode loop of byteparser.rs lines 103-120.  The
fuel argument bounds the iterations of the Rust while loop; every
iteration advances the offset by at least one byte, so a fuel of
d.length + 1 is always sufficient and the out-of-fuel branch is
unreachable from decode_instructions.  Slicing past the end of the
section in Rust panics, recorded as a panicked outcome. -/
def decode_go (dec : List Nat → Except String Instruction) (d : List Nat) :
    Nat → Nat → Res (List ASTNode)
  | 0, offset => if offset < d.length then .error (.panicked "out of fuel") else .ok []
  | fuel + 1, offset =>
    if offset < d.length then
      if offset + node_len_at d offset ≤ d.length then
        match dec ((d.drop offset).take (node_len_at d offset)) with
        | .error e => .error (.err (.InstructionParseError e))
        | .ok instr =>
          match decode_go dec d fuel (offset + node_len_at d offset) with
          | .error f => .error f
          | .ok rest => .ok (.Instruction instr offset :: rest)
      else .error (.panicked "range end index out of bounds")
    else .ok []

def decode_instructions (dec : List Nat → Except String Instruction) (d : List Nat) :
    Res (List ASTNode) :=
  decode_go dec d (d.length + 1) 0

/-- Modelled from the spec: AST.get_instruction_at_offset of
sbpf_assembler, the node-by-offset lookup of spec section 9, returning
the first decoded instruction node carrying the given byte offset. -/
def get_instruction_at_offset (nodes : List ASTNode) (off : Nat) : Option Instruction :=
  nodes.findSome? fun n =>
    match n with
    | .Instruction i o => if o = off then some i else none
    | .ROData _ _ => none

/-- In-place mutation through the reference returned by
get_instruction_at_offset: rewrite the first instruction node at the
given offset. -/
def modify_instruction_at_offset :
    List ASTNode → Nat → (Instruction → Instruction) → List ASTNode
  | [], _, _ => []
  | .Instruction ins o :: rest, off, f =>
    if o = off then .Instruction (f ins) o :: rest
    else .Instruction ins o :: modify_instruction_at_offset rest off f
  | .ROData r o :: rest, off, f => .ROData r o :: modify_instruction_at_offset rest off f

/-- The addend extraction of byteparser.rs lines 154-160: the trailing
operand interpreted as a signed integer immediate, zero otherwise. -/
def extract_addend (ops : List Token) : Int :=
  match ops.getLast? with
  | some (Token.ImmediateValue (ImmediateValue.Int v) _) => v
  | _ => 0

/-- The cast (addend as u64) of byteparser.rs line 164: i64 to u64 by
two-complement wraparound. -/
def i64_to_u64 (v : Int) : Nat := (v % (2 : Int) ^ 64).toNat

/-- The operand assignment of byteparser.rs lines 182-184: overwrite the
trailing operand with an identifier token. -/
def patch_last (label : String) (ins : Instruction) : Instruction :=
  { ins with operands := ins.operands.dropLast ++ [Token.Identifier label (0, 1)] }

/-- One iteration of the relocation loop of byteparser.rs lines 124-186.
Writing operands[len - 1] on an empty operand list panics in Rust
(index underflow), recorded as a panicked outcome. -/
def process_relocation (obj : ObjFile) (roIdx : Nat) (table : List (Nat × String))
    (nodes : List ASTNode) (rel : Relocation) : Res (List ASTNode) :=
  match rel.target with
  | .Other => .ok nodes
  | .Symbol i =>
    match obj.symbol_by_index i with
    | .error e => .error (.err (.InstructionParseError ("Failed to get symbol by index: " ++ e)))
    | .ok sym =>
      if sym.section_index = some roIdx then
        match get_instruction_at_offset nodes rel.offset with
        | none => .error (.err (.InstructionParseError
            ("No instruction found at offset " ++ toString rel.offset)))
        | some instr =>
          match table_get table (i64_to_u64 (extract_addend instr.operands)) with
          | none => .error (.err (.InstructionParseError
              ("Rodata label not found for addend " ++ toString (extract_addend instr.operands))))
          | some ro_label =>
            match get_instruction_at_offset nodes rel.offset with
            | none => .error (.err (.InstructionParseError
                ("No instruction found at offset " ++ toString rel.offset ++ " for patching")))
            | some node =>
              if node.operands.isEmpty then .error (.panicked "attempt to subtract with overflow")
              else .ok (modify_instruction_at_offset nodes rel.offset (patch_last ro_label))
      else .ok nodes

/-- The relocation loop over all entries of the text section. -/
def process_relocations (obj : ObjFile) (roIdx : Nat) (table : List (Nat × String)) :
    List Relocation → List ASTNode → Res (List ASTNode)
  | [], nodes => .ok nodes
  | r :: rs, nodes =>
    match process_relocation obj roIdx table nodes r with
    | .error f => .error f
    | .ok nodes1 => process_relocations obj roIdx table rs nodes1

/-- The AST value of sbpf_assembler as parse_bytecode populates it. -/
structure AST where
  nodes : List ASTNode
  rodata_nodes : List ASTNode
  rodata_size : Nat
  text_size : Nat
  deriving DecidableEq

/-- The packaged program handed to the downstream assembler. -/
structure ParseResult where
  nodes : List ASTNode
  rodata_nodes : List ASTNode
  rodata_size : Nat
  text_size : Nat
  deriving DecidableEq

def rodata_labels (ns : List ASTNode) : List String :=
  ns.filterMap fun n =>
    match n with
    | .ROData r _ => some r.name
    | .Instruction _ _ => none

def rodata_offs (ns : List ASTNode) : List Nat :=
  ns.filterMap fun n =>
    match n with
    | .ROData _ o => some o
    | .Instruction _ _ => none

def node_offsets (ns : List ASTNode) : List Nat :=
  ns.filterMap fun n =>
    match n with
    | .Instruction _ o => some o
    | .ROData _ _ => none

/-- Modelled from the spec: AST.build_program of sbpf_assembler (spec
section 4.5) validates and packages the accumulated nodes, surfacing
structural errors such as duplicate labels as a build error list. -/
def build_program (ast : AST) : Res ParseResult :=
  if (rodata_labels ast.rodata_nodes).Nodup then
    .ok { nodes := ast.nodes, rodata_nodes := ast.rodata_nodes,
          rodata_size := ast.rodata_size, text_size := ast.text_size }
  else .error (.err (.BuildProgramError ["duplicate rodata label"]))

/-- The per-section body of the loop of byteparser.rs lines 91-194. -/
def process_section (dec : List Nat → Except String Instruction) (obj : ObjFile)
    (ro : Option ObjSection) (table : List (Nat × String)) (ast : AST) (s : ObjSection) :
    Res AST :=
  if is_text_section s then
    match s.data with
    | .error e => .error (.err (.InstructionParseError ("Failed to read .text section data: " ++ e)))
    | .ok d =>
      match decode_instructions dec d with
      | .error f => .error f
      | .ok ns =>
        match ro with
        | some rosec =>
          match process_relocations obj rosec.index table s.relocations (ast.nodes ++ ns) with
          | .error f => .error f
          | .ok nodes2 => .ok { ast with nodes := nodes2, text_size := s.size }
        | none =>
          if s.relocations.length > 0 then
            .error (.err (.InstructionParseError "Relocations found but no .rodata section"))
          else .ok { ast with nodes := ast.nodes ++ ns, text_size := s.size }
  else .ok ast

def foldSections (dec : List Nat → Except String Instruction) (obj : ObjFile)
    (ro : Option ObjSection) (table : List (Nat × String)) :
    AST → List ObjSection → Res AST
  | ast, [] => .ok ast
  | ast, s :: ss =>
    match process_section dec obj ro table ast s with
    | .error f => .error f
    | .ok ast1 => foldSections dec obj ro table ast1 ss

/-- The rodata phase of byteparser.rs lines 40-89: read the section data
once and build the nodes, the table and the total size. -/
def build_rodata_all (obj : ObjFile) (ro : Option ObjSection) :
    Res (List ASTNode × List (Nat × String) × Nat) :=
  match ro with
  | none => .ok ([], [], 0)
  | some rosec =>
    match rosec.data with
    | .error e => .error (.err (.InstructionParseError ("Failed to read .rodata section data: " ++ e)))
    | .ok d => build_rodata d rosec.index obj.symbols 0 [] []

/-- The whole of parse_bytecode (byteparser.rs lines 16-198), taking the
already-attempted container parse (File.parse) and the external
instruction byte decoder as inputs. -/
def parse_bytecode (dec : List Nat → Except String Instruction)
    (parsed : Except String ObjFile) : Res ParseResult :=
  match parsed with
  | .error e => .error (.err (.FileParseError e))
  | .ok obj =>
    if (obj.sections.filter (fun s => rodata_named s)).length > 1 then
      .error (.err (.InstructionParseError "Multiple .rodata sections found"))
    else
      match build_rodata_all obj (obj.sections.find? (fun s => rodata_named s)) with
      | .error f => .error f
      | .ok (rnodes, table, rsize) =>
        match foldSections dec obj (obj.sections.find? (fun s => rodata_named s)) table
            { nodes := [], rodata_nodes := rnodes, rodata_size := rsize, text_size := 0 }
            obj.sections with
        | .error f => .error f
        | .ok ast => build_program ast

/-! Concrete objects used to evaluate the embedding. -/

/-- A trivial instruction byte decoder: every slice decodes to an
instruction whose single operand is the integer immediate 0. -/
def dec0 : List Nat → Except String Instruction :=
  fun _ => .ok { operands := [Token.ImmediateValue (.Int 0) (0, 1)] }

/-- A decoder whose decoded trailing immediate is 5. -/
def dec5 : List Nat → Except String Instruction :=
  fun _ => .ok { operands := [Token.ImmediateValue (.Int 5) (0, 1)] }

/-- The round-trip scenario of the spec: one rodata symbol MSG of 4
bytes at address 0. -/
def msgSymbol : ObjSymbol :=
  { name := .ok "MSG", address := 0, size := 4, section_index := some 2 }

def msgTextSec : ObjSection :=
  { name := .ok ".text", data := .ok [183, 0, 0, 0, 0, 0, 0, 0], size := 8, index := 1,
    relocations := [{ offset := 0, target := .Symbol 0 }] }

def msgRoSec : ObjSection :=
  { name := .ok ".rodata", data := .ok [72, 73, 33, 0], size := 4, index := 2,
    relocations := [] }

def msgObj : ObjFile := { sections := [msgTextSec, msgRoSec], symbols := [msgSymbol] }

def msgRodataNode : ASTNode :=
  .ROData
    { name := "MSG",
      args := [Token.Directive "byte" (0, 1),
               Token.VectorLiteral [.Int 72, .Int 73, .Int 33, .Int 0] (0, 1)],
      span := (0, 1) }
    0

def msgExpected : ParseResult :=
  { nodes := [.Instruction { operands := [Token.Identifier "MSG" (0, 1)] } 0],
    rodata_nodes := [msgRodataNode],
    rodata_size := 4,
    text_size := 8 }

/-- An object whose rodata symbol claims 4 bytes while the rodata
section holds only 2: the byte gathering loop indexes out of bounds. -/
def oobRoSec : ObjSection :=
  { name := .ok ".rodata", data := .ok [7, 7], size := 2, index := 2, relocations := [] }

def oobObj : ObjFile :=
  { sections := [oobRoSec],
    symbols := [{ name := .ok "BIG", address := 0, size := 4, section_index := some 2 }] }

/-- An object whose text section holds 4 bytes, less than one standard
instruction: the slice of the first instruction runs past the end. -/
def truncTextSec : ObjSection :=
  { name := .ok ".text", data := .ok [183, 0, 0, 0], size := 4, index := 1,
    relocations := [] }

def truncObj : ObjFile := { sections := [truncTextSec], symbols := [] }

/-- A 4-byte text section carrying one relocation, with no rodata
section anywhere in the object. -/
def truncRelTextSec : ObjSection :=
  { name := .ok ".text", data := .ok [183, 0, 0, 0], size := 4, index := 1,
    relocations := [{ offset := 0, target := .Symbol 0 }] }

def truncRelObj : ObjFile := { sections := [truncRelTextSec], symbols := [] }

/-- A well-formed 8-byte text section carrying one relocation, with no
rodata section anywhere in the object. -/
def danglingTextSec : ObjSection :=
  { name := .ok ".text", data := .ok [183, 0, 0, 0, 0, 0, 0, 0], size := 8, index := 1,
    relocations := [{ offset := 0, target := .Other }] }

def danglingObj : ObjFile := { sections := [danglingTextSec], symbols := [] }

/-- The MSG object but decoded with a trailing immediate of 5, an
address registered by no rodata symbol. -/
def badAddendObj : ObjFile := msgObj

/-- An object holding two rodata-prefixed sections. -/
def twoRoObj : ObjFile :=
  { sections :=
      [{ name := .ok ".rodata", data := .ok [1], size := 1, index := 2, relocations := [] },
       { name := .ok ".rodata.str1.1", data := .ok [2], size := 1, index := 3, relocations := [] }],
    symbols := [] }

/-! Specification-side reference functions, phrased after the words of
the spec so that the source-shaped builders can be compared to them. -/

/-- The symbol name when its read succeeds; only ever applied under a
hypothesis that the read succeeds. -/
def name_or_default (s : ObjSymbol) : String :=
  match s.name with
  | .ok nm => nm
  | .error _ => ""

/-- Follows the spec words for the rodata table builder (section 4.2):
emit one node per (already filtered) eligible symbol, in order,
assigning each the running total of previously emitted sizes. -/
def rodata_nodes_spec (d : List Nat) : Nat → List ObjSymbol → List ASTNode
  | _, [] => []
  | off, s :: rest => mk_rodata_node d s (name_or_default s) off :: rodata_nodes_spec d (off + s.size) rest

/-- Follows the spec words: the address-to-label registrations made for
the (already filtered) eligible symbols, in order. -/
def table_spec : List (Nat × String) → List ObjSymbol → List (Nat × String)
  | tbl, [] => tbl
  | tbl, s :: rest => table_spec (table_insert tbl s.address (name_or_default s)) rest

/-- Running sums: element k is the accumulator plus the sum of the
first k list entries. -/
def running_sums : Nat → List Nat → List Nat
  | _, [] => []
  | a, x :: xs => a :: running_sums (a + x) xs

/-- Total byte length of the literal vectors carried by a node. -/
def vector_len (n : ASTNode) : Nat :=
  match n with
  | .ROData r _ =>
    (r.args.map fun t =>
      match t with
      | Token.VectorLiteral vs _ => vs.length
      | _ => 0).sum
  | .Instruction _ _ => 0

/-! Further concrete inputs used by witnesses. -/

/-- A relocation whose decoded instruction carries the trailing
immediate -1; its rodata table registers the wrapped address 2^64 - 1. -/
def negNodes : List ASTNode :=
  [.Instruction { operands := [Token.ImmediateValue (.Int (-1)) (0, 1)] } 0]

def negTable : List (Nat × String) := [(18446744073709551615, "NEG")]

def negObj : ObjFile :=
  { sections := [],
    symbols := [{ name := .ok "NEG", address := 18446744073709551615, size := 1,
                  section_index := some 2 }] }

def negRel : Relocation := { offset := 0, target := .Symbol 0 }

/-- Symbol list exercising the rodata builder: two eligible symbols
interleaved with a zero-size marker and a symbol of another section. -/
def c6d : List Nat := [10, 11, 12, 13, 14]

def c6syms : List ObjSymbol :=
  [{ name := .ok "A", address := 0, size := 2, section_index := some 2 },
   { name := .ok "MARK", address := 2, size := 0, section_index := some 2 },
   { name := .ok "OTHER", address := 9, size := 9, section_index := some 5 },
   { name := .ok "B", address := 2, size := 3, section_index := some 2 }]

/-- A 16-byte all-standard-opcode text payload and its decoded nodes. -/
def d16 : List Nat := [183, 0, 0, 0, 0, 0, 0, 0, 183, 0, 0, 0, 0, 0, 0, 0]

def ns16 : List ASTNode :=
  [.Instruction { operands := [Token.ImmediateValue (.Int 0) (0, 1)] } 0,
   .Instruction { operands := [Token.ImmediateValue (.Int 0) (0, 1)] } 8]

/-! Theorems. -/

/-- C5: an object with more than one rodata-prefixed section makes
parse_bytecode return the configuration-conflict error; the statement
holds for every instruction decoder, so no instruction decoding can
have taken place. -/
theorem claim_c5_multiple_rodata (dec : List Nat → Except String Instruction) (obj : ObjFile)
    (h : (obj.sections.filter (fun s => rodata_named s)).length > 1) :
    parse_bytecode dec (.ok obj) =
      .error (.err (.InstructionParseError "Multiple .rodata sections found")) := by
  simp only [parse_bytecode]
  rw [if_pos h]

theorem claim_c5_witness :
    parse_bytecode dec0 (.ok twoRoObj) =
      .error (.err (.InstructionParseError "Multiple .rodata sections found")) :=
  claim_c5_multiple_rodata dec0 twoRoObj (by decide)

/-- C2: parse_bytecode is not panic free.  Slicing the rodata bytes of
a symbol whose address plus size exceeds the section data panics, and
slicing a truncated text section at the current offset panics; neither
is returned as a recoverable error. -/
theorem claim_c2_panics :
    parse_bytecode dec0 (.ok oobObj) = .error (.panicked "index out of bounds") ∧
    parse_bytecode dec0 (.ok truncObj) = .error (.panicked "range end index out of bounds") := by
  exact ⟨by decide, by decide⟩

/-- C1: for a relocation whose target symbol lives in the rodata
section, the addend is the trailing operand read as a signed integer
immediate (zero when the trailing operand is no integer immediate), and
a successful table lookup rewrites the trailing operand to an
identifier token carrying the label; the round-trip MSG scenario
produces the symbolic reference MSG in place of the integer 0. -/
theorem claim_c1_implicit_addend :
    (∀ (obj : ObjFile) (roIdx : Nat) (table : List (Nat × String)) (nodes : List ASTNode)
        (rel : Relocation) (i : Nat) (sym : ObjSymbol) (instr : Instruction) (v : Int)
        (sp : Nat × Nat) (label : String),
        rel.target = .Symbol i →
        obj.symbol_by_index i = .ok sym →
        sym.section_index = some roIdx →
        get_instruction_at_offset nodes rel.offset = some instr →
        instr.operands.getLast? = some (Token.ImmediateValue (.Int v) sp) →
        table_get table (i64_to_u64 v) = some label →
        process_relocation obj roIdx table nodes rel =
          .ok (modify_instruction_at_offset nodes rel.offset (patch_last label))) ∧
    (∀ ops : List Token,
        (∀ (v : Int) (sp : Nat × Nat), ops.getLast? ≠ some (Token.ImmediateValue (.Int v) sp)) →
        extract_addend ops = 0) ∧
    (∀ (ins : Instruction) (label : String), ins.operands ≠ [] →
        (patch_last label ins).operands.getLast? = some (Token.Identifier label (0, 1))) ∧
    parse_bytecode dec0 (.ok msgObj) = .ok msgExpected := by
  refine ⟨?_, ?_, ?_, by decide⟩
  · intro obj roIdx table nodes rel i sym instr v sp label ht hsym hsec hget hlast htbl
    have hea : extract_addend instr.operands = v := by
      unfold extract_addend
      rw [hlast]
    have hne : instr.operands.isEmpty = false := by
      cases hops : instr.operands with
      | nil => rw [hops] at hlast; simp at hlast
      | cons a l => simp
    simp only [process_relocation, ht, hsym, hsec, hget, hea, htbl, hne]
    simp
  · intro ops hne
    unfold extract_addend
    cases hl : ops.getLast? with
    | none => rfl
    | some t =>
      cases t with
      | ImmediateValue v sp =>
        cases v with
        | Int v => exact absurd hl (hne v sp)
      | Directive s sp => rfl
      | VectorLiteral vs sp => rfl
      | Identifier s sp => rfl
      | Register r sp => rfl
  · intro ins label hne
    unfold patch_last
    simp [List.getLast?_concat]

theorem claim_c1_witness :
    process_relocation msgObj 2 [(0, "MSG")]
        [.Instruction { operands := [Token.ImmediateValue (.Int 0) (0, 1)] } 0]
        { offset := 0, target := .Symbol 0 } =
      .ok (modify_instruction_at_offset
        [.Instruction { operands := [Token.ImmediateValue (.Int 0) (0, 1)] } 0]
        0 (patch_last "MSG")) :=
  claim_c1_implicit_addend.1 msgObj 2 [(0, "MSG")]
    [.Instruction { operands := [Token.ImmediateValue (.Int 0) (0, 1)] } 0]
    { offset := 0, target := .Symbol 0 } 0 msgSymbol
    { operands := [Token.ImmediateValue (.Int 0) (0, 1)] } 0 (0, 1) "MSG"
    rfl (by decide) (by decide) (by decide) (by decide) (by decide)

/-- C8: a relocation with a non-symbol target is skipped, a relocation
whose resolved symbol lives outside the rodata section is skipped, a
failed symbol-index lookup is a fatal error, and a rodata-targeted
relocation with a missing instruction or an unregistered addend is a
fatal error rather than a skip. -/
theorem claim_c8_skip_conditions :
    (∀ (obj : ObjFile) (roIdx : Nat) (table : List (Nat × String)) (nodes : List ASTNode)
        (rel : Relocation), rel.target = .Other →
        process_relocation obj roIdx table nodes rel = .ok nodes) ∧
    (∀ (obj : ObjFile) (roIdx : Nat) (table : List (Nat × String)) (nodes : List ASTNode)
        (rel : Relocation) (i : Nat) (sym : ObjSymbol), rel.target = .Symbol i →
        obj.symbol_by_index i = .ok sym → sym.section_index ≠ some roIdx →
        process_relocation obj roIdx table nodes rel = .ok nodes) ∧
    (∀ (obj : ObjFile) (roIdx : Nat) (table : List (Nat × String)) (nodes : List ASTNode)
        (rel : Relocation) (i : Nat) (e : String), rel.target = .Symbol i →
        obj.symbol_by_index i = .error e →
        process_relocation obj roIdx table nodes rel =
          .error (.err (.InstructionParseError ("Failed to get symbol by index: " ++ e)))) ∧
    (∀ (obj : ObjFile) (roIdx : Nat) (table : List (Nat × String)) (nodes : List ASTNode)
        (rel : Relocation) (i : Nat) (sym : ObjSymbol), rel.target = .Symbol i →
        obj.symbol_by_index i = .ok sym → sym.section_index = some roIdx →
        (get_instruction_at_offset nodes rel.offset = none ∨
          ∃ instr, get_instruction_at_offset nodes rel.offset = some instr ∧
            table_get table (i64_to_u64 (extract_addend instr.operands)) = none) →
        ∃ f, process_relocation obj roIdx table nodes rel = .error f) := by
  refine ⟨?_, ?_, ?_, ?_⟩
  · intro obj roIdx table nodes rel ht
    simp only [process_relocation, ht]
  · intro obj roIdx table nodes rel i sym ht hsym hsec
    simp only [process_relocation, ht, hsym]
    rw [if_neg hsec]
  · intro obj roIdx table nodes rel i e ht hsym
    simp only [process_relocation, ht, hsym]
  · intro obj roIdx table nodes rel i sym ht hsym hsec hbad
    cases hbad with
    | inl hnone =>
      refine ⟨.err (.InstructionParseError ("No instruction found at offset " ++ toString rel.offset)), ?_⟩
      simp only [process_relocation, ht, hsym, hsec, hnone]
      simp
    | inr hx =>
      obtain ⟨instr, hget, htbl⟩ := hx
      refine ⟨.err (.InstructionParseError
        ("Rodata label not found for addend " ++ toString (extract_addend instr.operands))), ?_⟩
      simp only [process_relocation, ht, hsym, hsec, hget, htbl]
      simp

theorem claim_c8_witness :
    process_relocation danglingObj 0 [] [] { offset := 0, target := .Other } = .ok [] :=
  claim_c8_skip_conditions.1 danglingObj 0 [] [] { offset := 0, target := .Other } rfl

/-- C3: a rodata-targeted relocation with no decoded instruction at its
offset, or whose extracted addend is registered by no rodata symbol,
makes the decode fail with a relocation-integrity error; such an error
aborts the remaining relocation list, and on the concrete MSG object
decoded with trailing immediate 5 the whole parse fails. -/
theorem claim_c3_relocation_integrity :
    (∀ (obj : ObjFile) (roIdx : Nat) (table : List (Nat × String)) (nodes : List ASTNode)
        (rel : Relocation) (i : Nat) (sym : ObjSymbol), rel.target = .Symbol i →
        obj.symbol_by_index i = .ok sym → sym.section_index = some roIdx →
        get_instruction_at_offset nodes rel.offset = none →
        process_relocation obj roIdx table nodes rel =
          .error (.err (.InstructionParseError
            ("No instruction found at offset " ++ toString rel.offset)))) ∧
    (∀ (obj : ObjFile) (roIdx : Nat) (table : List (Nat × String)) (nodes : List ASTNode)
        (rel : Relocation) (i : Nat) (sym : ObjSymbol) (instr : Instruction),
        rel.target = .Symbol i →
        obj.symbol_by_index i = .ok sym → sym.section_index = some roIdx →
        get_instruction_at_offset nodes rel.offset = some instr →
        table_get table (i64_to_u64 (extract_addend instr.operands)) = none →
        process_relocation obj roIdx table nodes rel =
          .error (.err (.InstructionParseError
            ("Rodata label not found for addend " ++ toString (extract_addend instr.operands))))) ∧
    (∀ (obj : ObjFile) (roIdx : Nat) (table : List (Nat × String)) (l1 : List Relocation)
        (rel : Relocation) (l2 : List Relocation) (nodes nodes1 : List ASTNode) (f : Failure),
        process_relocations obj roIdx table l1 nodes = .ok nodes1 →
        process_relocation obj roIdx table nodes1 rel = .error f →
        process_relocations obj roIdx table (l1 ++ rel :: l2) nodes = .error f) ∧
    parse_bytecode dec5 (.ok badAddendObj) =
      .error (.err (.InstructionParseError "Rodata label not found for addend 5")) := by
  refine ⟨?_, ?_, ?_, by decide⟩
  · intro obj roIdx table nodes rel i sym ht hsym hsec hnone
    simp only [process_relocation, ht, hsym, hsec, hnone]
    simp
  · intro obj roIdx table nodes rel i sym instr ht hsym hsec hget htbl
    simp only [process_relocation, ht, hsym, hsec, hget, htbl]
    simp
  · intro obj roIdx table l1
    induction l1 with
    | nil =>
      intro rel l2 nodes nodes1 f h1 h2
      simp only [process_relocations] at h1
      cases h1
      simp only [List.nil_append, process_relocations, h2]
    | cons r rs ih =>
      intro rel l2 nodes nodes1 f h1 h2
      simp only [process_relocations] at h1
      cases hr : process_relocation obj roIdx table nodes r with
      | error f0 => rw [hr] at h1; cases h1
      | ok n1 =>
        rw [hr] at h1
        simp only [List.cons_append, process_relocations, hr]
        exact ih rel l2 n1 nodes1 f h1 h2

theorem claim_c3_witness :
    process_relocation msgObj 2 [(0, "MSG")] [] { offset := 0, target := .Symbol 0 } =
      .error (.err (.InstructionParseError "No instruction found at offset 0")) :=
  claim_c3_relocation_integrity.1 msgObj 2 [(0, "MSG")] [] { offset := 0, target := .Symbol 0 }
    0 msgSymbol rfl (by decide) (by decide) (by decide)

/-- C10: the extracted signed addend is converted to a lookup address
by two-complement wraparound mod 2^64, so a negative trailing immediate
v is looked up at 2^64 + v; concretely, a trailing immediate of -1 with
the address 2^64 - 1 registered resolves and patches the operand. -/
theorem claim_c10_wraparound :
    (∀ v : Int, -(2 ^ 63) ≤ v → v < 0 → i64_to_u64 v = ((2 : Int) ^ 64 + v).toNat) ∧
    process_relocation negObj 2 negTable negNodes negRel =
      .ok (modify_instruction_at_offset negNodes 0 (patch_last "NEG")) := by
  constructor
  · intro v h1 h2
    unfold i64_to_u64
    have hmod : v % (2 : Int) ^ 64 = v + 2 ^ 64 := by
      have h3 : v + 2 ^ 64 < 2 ^ 64 := by linarith
      have h4 : (0 : Int) ≤ v + 2 ^ 64 := by
        have hsplit : (2 : Int) ^ 64 = 2 ^ 63 + 2 ^ 63 := by ring
        have hpos : (0 : Int) ≤ 2 ^ 63 := by positivity
        linarith
      have h5 : v % (2 : Int) ^ 64 = (v + 2 ^ 64 * 1) % 2 ^ 64 :=
        (Int.add_mul_emod_self_left v (2 ^ 64) 1).symm
      rw [mul_one] at h5
      rw [h5, Int.emod_eq_of_lt h4 h3]
    rw [hmod]
    congr 1
    ring
  · decide

theorem claim_c10_witness : i64_to_u64 (-1) = ((2 : Int) ^ 64 + (-1)).toNat :=
  claim_c10_wraparound.1 (-1) (by norm_num) (by norm_num)

lemma find_rodata_none (l : List ObjSection) (h : ∀ s ∈ l, rodata_named s = false) :
    l.find? (fun s => rodata_named s) = none := by
  apply List.find?_eq_none.mpr
  intro s hs
  simp [h s hs]

lemma filter_rodata_nil (l : List ObjSection) (h : ∀ s ∈ l, rodata_named s = false) :
    l.filter (fun s => rodata_named s) = [] := by
  apply List.filter_eq_nil_iff.mpr
  intro s hs
  simp [h s hs]

lemma foldSections_skip (dec : List Nat → Except String Instruction) (obj : ObjFile)
    (ro : Option ObjSection) (table : List (Nat × String)) :
    ∀ (pre : List ObjSection), (∀ s ∈ pre, is_text_section s = false) →
    ∀ (ast : AST) (rest : List ObjSection),
    foldSections dec obj ro table ast (pre ++ rest) = foldSections dec obj ro table ast rest := by
  intro pre
  induction pre with
  | nil => intro _ ast rest; rfl
  | cons s ss ih =>
    intro h ast rest
    have hs : is_text_section s = false := h s (List.mem_cons_self s ss)
    have hps : process_section dec obj ro table ast s = .ok ast := by
      simp [process_section, hs]
    simp only [List.cons_append, foldSections, hps]
    exact ih (fun x hx => h x (List.mem_cons_of_mem s hx)) ast rest

/-- C4 counterexample: an object whose 4-byte text section carries a
relocation and that has no rodata section does not produce the
dangling-relocation error (the truncated instruction slice panics
first). -/
theorem claim_c4_counterexample :
    parse_bytecode dec0 (.ok truncRelObj) ≠
      .error (.err (.InstructionParseError "Relocations found but no .rodata section")) := by
  decide

/-- C4 (amended): for every object with no rodata-prefixed section
whose text section data reads successfully and decodes fully into
instructions, the presence of any relocation on that text section makes
parse_bytecode return the dangling-relocation error, so no Program is
produced. -/
theorem claim_c4_dangling_reloc (dec : List Nat → Except String Instruction) (obj : ObjFile)
    (pre post : List ObjSection) (tsec : ObjSection) (d : List Nat) (ns : List ASTNode)
    (hro : ∀ s ∈ obj.sections, rodata_named s = false)
    (hsplit : obj.sections = pre ++ tsec :: post)
    (hpre : ∀ s ∈ pre, is_text_section s = false)
    (htext : is_text_section tsec = true)
    (hdata : tsec.data = .ok d)
    (hdec : decode_instructions dec d = .ok ns)
    (hrel : tsec.relocations ≠ []) :
    parse_bytecode dec (.ok obj) =
      .error (.err (.InstructionParseError "Relocations found but no .rodata section")) := by
  have hfind : obj.sections.find? (fun s => rodata_named s) = none := find_rodata_none _ hro
  have hfilter : obj.sections.filter (fun s => rodata_named s) = [] := filter_rodata_nil _ hro
  have hlen : tsec.relocations.length > 0 := List.length_pos.mpr hrel
  simp only [parse_bytecode, hfilter, hfind, List.length_nil, build_rodata_all]
  rw [if_neg (by omega)]
  rw [hsplit, foldSections_skip dec obj none [] pre hpre]
  simp only [foldSections, process_section, htext, hdata, hdec, if_pos hlen]
  simp

theorem claim_c4_witness :
    parse_bytecode dec0 (.ok danglingObj) =
      .error (.err (.InstructionParseError "Relocations found but no .rodata section")) :=
  claim_c4_dangling_reloc dec0 danglingObj [] [] danglingTextSec
    [183, 0, 0, 0, 0, 0, 0, 0]
    [.Instruction { operands := [Token.ImmediateValue (.Int 0) (0, 1)] } 0]
    (by decide) rfl (by intro s hs; cases hs) (by decide) rfl (by decide) (by decide)

lemma build_rodata_spec (d : List Nat) (roIdx : Nat) :
    ∀ (syms : List ObjSymbol) (off : Nat) (acc : List ASTNode) (tbl : List (Nat × String)),
    (∀ s ∈ syms, eligible roIdx s = true →
      (∃ nm, s.name = .ok nm) ∧ s.address + s.size ≤ d.length) →
    build_rodata d roIdx syms off acc tbl =
      .ok (acc ++ rodata_nodes_spec d off (syms.filter (eligible roIdx)),
           table_spec tbl (syms.filter (eligible roIdx)),
           off + ((syms.filter (eligible roIdx)).map (fun s => s.size)).sum) := by
  intro syms
  induction syms with
  | nil => intro off acc tbl _; simp [build_rodata, rodata_nodes_spec, table_spec]
  | cons s rest ih =>
    intro off acc tbl h
    by_cases he : eligible roIdx s = true
    · obtain ⟨⟨nm, hnm⟩, hbd⟩ := h s (List.mem_cons_self s rest) he
      rw [List.filter_cons_of_pos he]
      simp only [build_rodata, he, if_true, hnm, if_pos hbd]
      rw [ih (off + s.size) (acc ++ [mk_rodata_node d s nm off]) (table_insert tbl s.address nm)
        (fun x hx hex => h x (List.mem_cons_of_mem s hx) hex)]
      simp only [rodata_nodes_spec, table_spec, name_or_default, hnm, List.append_assoc,
        List.singleton_append, List.map_cons, List.sum_cons]
      rw [Nat.add_assoc]
    · have hff : eligible roIdx s = false := by
        revert he; cases eligible roIdx s <;> simp
      rw [List.filter_cons_of_neg (by simp [hff])]
      simp only [build_rodata, hff]
      simp only [Bool.false_eq_true, if_false]
      exact ih off acc tbl (fun x hx hex => h x (List.mem_cons_of_mem s hx) hex)

lemma rodata_labels_cons_ro (r : ROData) (o : Nat) (l : List ASTNode) :
    rodata_labels (.ROData r o :: l) = r.name :: rodata_labels l := rfl

lemma rodata_offs_cons_ro (r : ROData) (o : Nat) (l : List ASTNode) :
    rodata_offs (.ROData r o :: l) = o :: rodata_offs l := rfl

lemma rodata_labels_nodes_spec (d : List Nat) :
    ∀ (off : Nat) (es : List ObjSymbol),
    rodata_labels (rodata_nodes_spec d off es) = es.map name_or_default := by
  intro off es
  induction es generalizing off with
  | nil => rfl
  | cons s rest ih =>
    simp only [rodata_nodes_spec, mk_rodata_node, rodata_labels_cons_ro, ih, List.map_cons]

lemma rodata_offs_nodes_spec (d : List Nat) :
    ∀ (off : Nat) (es : List ObjSymbol),
    rodata_offs (rodata_nodes_spec d off es) = running_sums off (es.map (fun s => s.size)) := by
  intro off es
  induction es generalizing off with
  | nil => rfl
  | cons s rest ih =>
    simp only [rodata_nodes_spec, mk_rodata_node, rodata_offs_cons_ro, ih, List.map_cons,
      running_sums]

lemma vector_len_nodes_spec (d : List Nat) :
    ∀ (off : Nat) (es : List ObjSymbol),
    (rodata_nodes_spec d off es).map vector_len = es.map (fun s => s.size) := by
  intro off es
  induction es generalizing off with
  | nil => rfl
  | cons s rest ih =>
    simp [rodata_nodes_spec, vector_len, mk_rodata_node, rodata_bytes, ih]

lemma length_nodes_spec (d : List Nat) :
    ∀ (off : Nat) (es : List ObjSymbol),
    (rodata_nodes_spec d off es).length = es.length := by
  intro off es
  induction es generalizing off with
  | nil => rfl
  | cons s rest ih => simp [rodata_nodes_spec, ih]

/-- C6: on a valid single-rodata-section object the builder emits one
node per eligible symbol (owning section matches and size positive) in
object-declared order, assigns each node the running sum of previously
emitted sizes, and records as rodata total the sum of emitted sizes,
which equals the sum of the emitted byte-vector lengths. -/
theorem claim_c6_rodata_builder (d : List Nat) (roIdx : Nat) (syms : List ObjSymbol)
    (h : ∀ s ∈ syms, eligible roIdx s = true →
      (∃ nm, s.name = .ok nm) ∧ s.address + s.size ≤ d.length) :
    build_rodata d roIdx syms 0 [] [] =
      .ok (rodata_nodes_spec d 0 (syms.filter (eligible roIdx)),
           table_spec [] (syms.filter (eligible roIdx)),
           ((syms.filter (eligible roIdx)).map (fun s => s.size)).sum) ∧
    rodata_labels (rodata_nodes_spec d 0 (syms.filter (eligible roIdx))) =
      (syms.filter (eligible roIdx)).map name_or_default ∧
    rodata_offs (rodata_nodes_spec d 0 (syms.filter (eligible roIdx))) =
      running_sums 0 ((syms.filter (eligible roIdx)).map (fun s => s.size)) ∧
    ((rodata_nodes_spec d 0 (syms.filter (eligible roIdx))).map vector_len).sum =
      ((syms.filter (eligible roIdx)).map (fun s => s.size)).sum ∧
    (rodata_nodes_spec d 0 (syms.filter (eligible roIdx))).length =
      (syms.filter (eligible roIdx)).length := by
  refine ⟨?_, rodata_labels_nodes_spec d 0 _, rodata_offs_nodes_spec d 0 _, ?_, length_nodes_spec d 0 _⟩
  · have hb := build_rodata_spec d roIdx syms 0 [] [] h
    simpa using hb
  · rw [vector_len_nodes_spec d 0]

theorem claim_c6_witness :
    build_rodata c6d 2 c6syms 0 [] [] =
      .ok (rodata_nodes_spec c6d 0 (c6syms.filter (eligible 2)),
           table_spec [] (c6syms.filter (eligible 2)),
           ((c6syms.filter (eligible 2)).map (fun s => s.size)).sum) ∧
    rodata_labels (rodata_nodes_spec c6d 0 (c6syms.filter (eligible 2))) =
      (c6syms.filter (eligible 2)).map name_or_default ∧
    rodata_offs (rodata_nodes_spec c6d 0 (c6syms.filter (eligible 2))) =
      running_sums 0 ((c6syms.filter (eligible 2)).map (fun s => s.size)) ∧
    ((rodata_nodes_spec c6d 0 (c6syms.filter (eligible 2))).map vector_len).sum =
      ((c6syms.filter (eligible 2)).map (fun s => s.size)).sum ∧
    (rodata_nodes_spec c6d 0 (c6syms.filter (eligible 2))).length =
      (c6syms.filter (eligible 2)).length :=
  claim_c6_rodata_builder c6d 2 c6syms (by
    intro s hs he
    fin_cases hs
    · exact ⟨⟨"A", rfl⟩, by decide⟩
    · exact absurd he (by decide)
    · exact absurd he (by decide)
    · exact ⟨⟨"B", rfl⟩, by decide⟩)

lemma node_offsets_nil : node_offsets [] = [] := rfl

lemma node_offsets_cons_instr (i : Instruction) (o : Nat) (l : List ASTNode) :
    node_offsets (.Instruction i o :: l) = o :: node_offsets l := rfl

lemma node_len_at_pos (d : List Nat) (off : Nat) : 0 < node_len_at d off := by
  unfold node_len_at LDDW_INSTRUCTION_SIZE STANDARD_INSTRUCTION_SIZE
  split <;> omega

lemma decode_go_head (dec : List Nat → Except String Instruction) (d : List Nat) :
    ∀ (fuel offset : Nat) (ns : List ASTNode), decode_go dec d fuel offset = .ok ns →
    (node_offsets ns = [] ∧ d.length ≤ offset) ∨ ∃ tl, node_offsets ns = offset :: tl := by
  intro fuel
  induction fuel with
  | zero =>
    intro offset ns h
    simp only [decode_go] at h
    split at h
    · cases h
    · cases h
      exact Or.inl ⟨rfl, by omega⟩
  | succ fuel ih =>
    intro offset ns h
    simp only [decode_go] at h
    split at h
    case isTrue hlt =>
      split at h
      case isTrue hle =>
        cases hE : dec ((d.drop offset).take (node_len_at d offset)) with
        | error e => rw [hE] at h; cases h
        | ok instr =>
          rw [hE] at h
          cases hR : decode_go dec d fuel (offset + node_len_at d offset) with
          | error f => rw [hR] at h; cases h
          | ok rest =>
            rw [hR] at h
            cases h
            exact Or.inr ⟨node_offsets rest, node_offsets_cons_instr instr offset rest⟩
      case isFalse hle => cases h
    case isFalse hlt =>
      cases h
      exact Or.inl ⟨rfl, by omega⟩

lemma decode_go_chain (dec : List Nat → Except String Instruction) (d : List Nat) :
    ∀ (fuel offset : Nat) (ns : List ASTNode), decode_go dec d fuel offset = .ok ns →
    List.Chain' (fun a b => b = a + node_len_at d a) (node_offsets ns) := by
  intro fuel
  induction fuel with
  | zero =>
    intro offset ns h
    simp only [decode_go] at h
    split at h
    · cases h
    · cases h; simp [node_offsets_nil]
  | succ fuel ih =>
    intro offset ns h
    simp only [decode_go] at h
    split at h
    case isTrue hlt =>
      split at h
      case isTrue hle =>
        cases hE : dec ((d.drop offset).take (node_len_at d offset)) with
        | error e => rw [hE] at h; cases h
        | ok instr =>
          rw [hE] at h
          cases hR : decode_go dec d fuel (offset + node_len_at d offset) with
          | error f => rw [hR] at h; cases h
          | ok rest =>
            rw [hR] at h
            cases h
            rw [node_offsets_cons_instr]
            have hch := ih (offset + node_len_at d offset) rest hR
            rcases decode_go_head dec d fuel (offset + node_len_at d offset) rest hR with
              ⟨hnil, _⟩ | ⟨tl, htl⟩
            · rw [hnil]; simp
            · rw [htl]
              rw [htl] at hch
              exact List.chain'_cons.mpr ⟨rfl, hch⟩
      case isFalse hle => cases h
    case isFalse hlt =>
      cases h; simp [node_offsets_nil]

lemma decode_go_std (dec : List Nat → Except String Instruction) (d : List Nat)
    (hstd : ∀ k : Nat, STANDARD_INSTRUCTION_SIZE * k < d.length →
      d.getD (STANDARD_INSTRUCTION_SIZE * k) 0 ≠ lddw_opcode) :
    ∀ (fuel j : Nat) (ns : List ASTNode), STANDARD_INSTRUCTION_SIZE * j ≤ d.length →
    decode_go dec d fuel (STANDARD_INSTRUCTION_SIZE * j) = .ok ns →
    d.length = STANDARD_INSTRUCTION_SIZE * j + STANDARD_INSTRUCTION_SIZE * ns.length ∧
    (∀ o ∈ node_offsets ns, ∃ k,
      o = STANDARD_INSTRUCTION_SIZE * j + STANDARD_INSTRUCTION_SIZE * k) := by
  intro fuel
  induction fuel with
  | zero =>
    intro j ns hle h
    simp only [decode_go] at h
    split at h
    · cases h
    · cases h
      refine ⟨by simp; omega, ?_⟩
      intro o ho
      simp [node_offsets_nil] at ho
  | succ fuel ih =>
    intro j ns hle h
    simp only [decode_go] at h
    split at h
    case isTrue hlt =>
      have hnl : node_len_at d (STANDARD_INSTRUCTION_SIZE * j) = STANDARD_INSTRUCTION_SIZE := by
        unfold node_len_at
        rw [if_neg (hstd j hlt)]
      split at h
      case isTrue hle2 =>
        cases hE : dec ((d.drop (STANDARD_INSTRUCTION_SIZE * j)).take
            (node_len_at d (STANDARD_INSTRUCTION_SIZE * j))) with
        | error e => rw [hE] at h; cases h
        | ok instr =>
          rw [hE] at h
          cases hR : decode_go dec d fuel
              (STANDARD_INSTRUCTION_SIZE * j + node_len_at d (STANDARD_INSTRUCTION_SIZE * j)) with
          | error f => rw [hR] at h; cases h
          | ok rest =>
            rw [hR] at h
            cases h
            rw [hnl] at hR hle2
            have hstep : STANDARD_INSTRUCTION_SIZE * j + STANDARD_INSTRUCTION_SIZE
                = STANDARD_INSTRUCTION_SIZE * (j + 1) := by ring
            rw [hstep] at hR hle2
            obtain ⟨hlen, hoffs⟩ := ih (j + 1) rest hle2 hR
            constructor
            · simp only [List.length_cons]
              rw [hlen]; ring
            · intro o ho
              rw [node_offsets_cons_instr] at ho
              rcases List.mem_cons.mp ho with hh | ht
              · exact ⟨0, by rw [hh]; ring⟩
              · obtain ⟨k, hk⟩ := hoffs o ht
                exact ⟨k + 1, by rw [hk]; ring⟩
      case isFalse hle2 => cases h
    case isFalse hlt =>
      cases h
      refine ⟨by simp; omega, ?_⟩
      intro o ho
      simp [node_offsets_nil] at ho

/-- C7: decoded instruction nodes appear at strictly increasing
offsets, each consecutive gap being exactly the width that the opcode
byte at the earlier offset dictates (double length for the wide
immediate-load opcode, standard length otherwise); for a text section
composed only of standard-width opcodes (no opcode position, that is no
byte at a multiple of the standard width, holds the wide opcode; operand
bytes are unconstrained) the node count is the section length divided by
the standard width and every offset is a multiple of it. -/
theorem claim_c7_decoder_offsets :
    (∀ (dec : List Nat → Except String Instruction) (d : List Nat) (ns : List ASTNode),
        decode_instructions dec d = .ok ns →
        List.Chain' (fun a b => b = a + node_len_at d a) (node_offsets ns) ∧
        List.Chain' (fun a b => a < b) (node_offsets ns)) ∧
    (∀ (dec : List Nat → Except String Instruction) (d : List Nat) (ns : List ASTNode),
        (∀ k : Nat, STANDARD_INSTRUCTION_SIZE * k < d.length →
          d.getD (STANDARD_INSTRUCTION_SIZE * k) 0 ≠ lddw_opcode) →
        decode_instructions dec d = .ok ns →
        ns.length = d.length / STANDARD_INSTRUCTION_SIZE ∧
        ∀ o ∈ node_offsets ns, STANDARD_INSTRUCTION_SIZE ∣ o) := by
  constructor
  · intro dec d ns h
    have hch := decode_go_chain dec d (d.length + 1) 0 ns h
    refine ⟨hch, ?_⟩
    refine List.Chain'.imp ?_ hch
    intro a b hab
    rw [hab]
    have := node_len_at_pos d a
    omega
  · intro dec d ns hstd h
    have h0 : decode_go dec d (d.length + 1) (STANDARD_INSTRUCTION_SIZE * 0) = .ok ns := by
      simpa using h
    obtain ⟨hlen, hoffs⟩ := decode_go_std dec d hstd (d.length + 1) 0 ns (by simp) h0
    constructor
    · simp only [STANDARD_INSTRUCTION_SIZE] at hlen ⊢
      omega
    · intro o ho
      obtain ⟨k, hk⟩ := hoffs o ho
      refine ⟨k, ?_⟩
      rw [hk]; ring

theorem claim_c7_witness :
    ns16.length = d16.length / STANDARD_INSTRUCTION_SIZE ∧
    ∀ o ∈ node_offsets ns16, STANDARD_INSTRUCTION_SIZE ∣ o :=
  claim_c7_decoder_offsets.2 dec0 d16 ns16
    (by
      intro k hk
      have h16 : d16.length = 16 := rfl
      simp only [STANDARD_INSTRUCTION_SIZE, h16] at hk
      have hk2 : k < 2 := by omega
      interval_cases k <;> decide)
    (by decide)

lemma table_insert_keys_nodup (t : List (Nat × String)) (k : Nat) (v : String)
    (h : (table_keys t).Nodup) : (table_keys (table_insert t k v)).Nodup := by
  unfold table_insert
  split
  case isTrue hany =>
    have hkeys : table_keys (t.map fun p => if p.1 = k then (k, v) else p) = table_keys t := by
      unfold table_keys
      rw [List.map_map]
      apply List.map_congr_left
      intro p _
      by_cases hp : p.1 = k
      · simp [hp]
      · simp [hp]
    rw [hkeys]
    exact h
  case isFalse hany =>
    unfold table_keys
    rw [List.map_append]
    refine List.nodup_append.mpr ⟨h, List.nodup_singleton k, ?_⟩
    intro a ha hb
    have hak : a = k := by simpa using hb
    obtain ⟨p, hp, hpk⟩ := List.mem_map.mp ha
    exact hany (List.any_eq_true.mpr ⟨p, hp, by simp [hpk, hak]⟩)

lemma build_rodata_keys_nodup (d : List Nat) (roIdx : Nat) :
    ∀ (syms : List ObjSymbol) (off : Nat) (acc nodes : List ASTNode)
      (tbl tbl2 : List (Nat × String)) (total : Nat),
    (table_keys tbl).Nodup →
    build_rodata d roIdx syms off acc tbl = .ok (nodes, tbl2, total) →
    (table_keys tbl2).Nodup := by
  intro syms
  induction syms with
  | nil =>
    intro off acc nodes tbl tbl2 total h hb
    simp only [build_rodata, Except.ok.injEq, Prod.mk.injEq] at hb
    obtain ⟨-, h2, -⟩ := hb
    rw [← h2]
    exact h
  | cons s rest ih =>
    intro off acc nodes tbl tbl2 total h hb
    simp only [build_rodata] at hb
    split at hb
    · split at hb
      · cases hb
      · split at hb
        · exact ih _ _ _ _ _ _ (table_insert_keys_nodup _ _ _ h) hb
        · cases hb
    · exact ih _ _ _ _ _ _ h hb

/-- C9: whenever parse_bytecode succeeds the labels of the emitted
read-only-data nodes are pairwise distinct, and the transient
address-to-label table produced by the rodata builder always has
pairwise distinct addresses as keys. -/
theorem claim_c9_uniqueness :
    (∀ (dec : List Nat → Except String Instruction) (parsed : Except String ObjFile)
        (r : ParseResult), parse_bytecode dec parsed = .ok r →
        (rodata_labels r.rodata_nodes).Nodup) ∧
    (∀ (d : List Nat) (roIdx : Nat) (syms : List ObjSymbol) (off : Nat)
        (acc nodes : List ASTNode) (tbl tbl2 : List (Nat × String)) (total : Nat),
        (table_keys tbl).Nodup →
        build_rodata d roIdx syms off acc tbl = .ok (nodes, tbl2, total) →
        (table_keys tbl2).Nodup) := by
  constructor
  · intro dec parsed r h
    cases parsed with
    | error e => simp [parse_bytecode] at h
    | ok obj =>
      simp only [parse_bytecode] at h
      split at h
      · cases h
      · split at h
        · cases h
        · split at h
          · cases h
          · rename_i ast
            unfold build_program at h
            split at h
            case isTrue hnd =>
              simp only [Except.ok.injEq] at h
              rw [← h]
              exact hnd
            case isFalse hnd => cases h
  · intro d roIdx syms off acc nodes tbl tbl2 total h hb
    exact build_rodata_keys_nodup d roIdx syms off acc nodes tbl tbl2 total h hb

theorem claim_c9_witness : (rodata_labels msgExpected.rodata_nodes).Nodup :=
  claim_c9_uniqueness.1 dec0 (.ok msgObj) msgExpected (by decide)

end SbpfLinker
